import Mathlib

/-!
Verification of the mongo-connector replication engine against its
natural-language specification.

The Python source is shallowly embedded: Python dictionaries become
insertion-ordered association lists, fallible Python code returns
`Except PyErr`, machine integers become `Int` (positions fit in 64 bits by
construction), and `float` values are carried by their exact rational value.
Each embedded definition mirrors one function of the repository; the file
then proves or refutes the frozen claims about them.
-/

deriving instance DecidableEq for Except

namespace MongoConn

/-- PyErr enumerates the Python exceptions that the embedded code can raise:
`keyError` for `KeyError`, `typeError` for `TypeError`, `valueError` for
`ValueError` (also raised by `json.load` on malformed input), `indexError`
for `IndexError`, `attributeError` for `AttributeError`,
`operationFailed msg` for `mongo_connector.errors.OperationFailed(msg)`, and
`upsertException` for the bare `Exception("upsert exception")` of the
simulator's upsert. -/
inductive PyErr : Type where
  | keyError
  | typeError
  | valueError
  | indexError
  | attributeError
  | operationFailed (msg : String)
  | upsertException
  deriving DecidableEq, Repr

/-- BVal models a Python/BSON value as stored in documents: `vint` covers
`int` and `long` (one constructor, as `long is int` on Python 3 and the two
behave alike here), `vbool` is `bool` (a distinct concrete type in Python,
even though `isinstance(True, int)` holds), `vfloat` carries the exact
rational value of a `float`, `vstr` is `str`, `vbin` is `bson.Binary` as a
byte list, `vother` is any other leaf object carried by its `str()` form and
its truthiness (e.g. `ObjectId`, `UUID`, compiled regex, `None`), `vlist` is
`list` and `vdoc` is `dict` as an insertion-ordered association list. -/
inductive BVal : Type where
  | vint (n : Int)
  | vbool (b : Bool)
  | vfloat (q : Rat)
  | vstr (s : String)
  | vbin (bytes : List Nat)
  | vother (str : String) (truthy : Bool)
  | vlist (items : List BVal)
  | vdoc (fields : List (String × BVal))
  deriving Repr

mutual

/-- Structural boolean equality on `BVal` (Python `==` restricted to
same-type comparison, which is all the embedded code performs on keys). -/
def bvalBeq : BVal → BVal → Bool
  | .vint n, .vint m => n == m
  | .vbool x, .vbool y => x == y
  | .vfloat p, .vfloat q => p == q
  | .vstr s, .vstr t => s == t
  | .vbin s, .vbin t => s == t
  | .vother s x, .vother t y => s == t && x == y
  | .vlist l, .vlist m => bvalListBeq l m
  | .vdoc d, .vdoc e => bvalDocBeq d e
  | _, _ => false

/-- Pointwise `bvalBeq` on lists. -/
def bvalListBeq : List BVal → List BVal → Bool
  | [], [] => true
  | a :: l, b :: m => bvalBeq a b && bvalListBeq l m
  | _, _ => false

/-- Pointwise `bvalBeq` on association lists. -/
def bvalDocBeq : List (String × BVal) → List (String × BVal) → Bool
  | [], [] => true
  | (k, a) :: l, (k', b) :: m => k == k' && (bvalBeq a b && bvalDocBeq l m)
  | _, _ => false

end

mutual

/-- `bvalBeq` decides propositional equality. -/
theorem bvalBeq_iff : ∀ a b, bvalBeq a b = true ↔ a = b
  | a, b => by
    cases a <;> cases b <;>
      simp only [bvalBeq, beq_iff_eq, Bool.and_eq_true, BVal.vint.injEq, BVal.vbool.injEq,
        BVal.vfloat.injEq, BVal.vstr.injEq, BVal.vbin.injEq, BVal.vother.injEq,
        BVal.vlist.injEq, BVal.vdoc.injEq, and_true, true_and, iff_true, iff_self] <;>
      first
        | rfl
        | simp
        | exact bvalListBeq_iff _ _
        | exact bvalDocBeq_iff _ _

/-- `bvalListBeq` decides propositional equality. -/
theorem bvalListBeq_iff : ∀ l m, bvalListBeq l m = true ↔ l = m
  | [], [] => by simp [bvalListBeq]
  | [], _ :: _ => by simp [bvalListBeq]
  | _ :: _, [] => by simp [bvalListBeq]
  | a :: l, b :: m => by
    simp only [bvalListBeq, Bool.and_eq_true, List.cons.injEq]
    rw [bvalBeq_iff a b, bvalListBeq_iff l m]

/-- `bvalDocBeq` decides propositional equality. -/
theorem bvalDocBeq_iff : ∀ l m, bvalDocBeq l m = true ↔ l = m
  | [], [] => by simp [bvalDocBeq]
  | [], _ :: _ => by simp [bvalDocBeq]
  | _ :: _, [] => by simp [bvalDocBeq]
  | (k, a) :: l, (k', b) :: m => by
    simp only [bvalDocBeq, Bool.and_eq_true, List.cons.injEq, Prod.mk.injEq, beq_iff_eq]
    rw [bvalBeq_iff a b, bvalDocBeq_iff l m]
    tauto

end

instance : DecidableEq BVal := fun a b => decidable_of_iff _ (bvalBeq_iff a b)

/-- Python `str()` of a value, for the cases the embedded code can reach.
`str` of an `int` is its decimal form, of a `bool` is `True`/`False`, of a
`str` is itself; `vother` carries its own `str()` form; `bson.Binary` on
Python 2 stringifies to its raw bytes. The `float`, `list` and `dict`
renderings are unreachable in every embedded code path (those types are
always dispatched before a `str()` fallback) and are given simple total
stand-ins. -/
def pyStr : BVal → String
  | .vint n => toString n
  | .vbool b => if b then "True" else "False"
  | .vfloat q => toString q
  | .vstr s => s
  | .vbin bs => String.mk (bs.map (fun b => Char.ofNat (b % 256)))
  | .vother s _ => s
  | .vlist _ => "<list>"
  | .vdoc _ => "<dict>"

/-- Python truthiness (`bool(v)`): zero numbers, empty containers, the empty
string and falsy foreign objects (e.g. `None`) are false. -/
def pyTruthy : BVal → Bool
  | .vint n => n != 0
  | .vbool b => b
  | .vfloat q => q != 0
  | .vstr s => s != ""
  | .vbin bs => !bs.isEmpty
  | .vother _ t => t
  | .vlist l => !l.isEmpty
  | .vdoc d => !d.isEmpty

/-- Association-list update, modelling Python `d[k] = v`: the first binding
of `k` is updated in place (its position kept); a new key is appended. -/
def alSet {κ α : Type} [DecidableEq κ] : List (κ × α) → κ → α → List (κ × α)
  | [], k, v => [(k, v)]
  | (k', v') :: rest, k, v =>
      if k' = k then (k', v) :: rest else (k', v') :: alSet rest k v

/-- Association-list lookup, modelling Python `d[k]` / `d.get(k)`. -/
def alGet {κ α : Type} [DecidableEq κ] : List (κ × α) → κ → Option α
  | [], _ => none
  | (k', v') :: rest, k => if k' = k then some v' else alGet rest k

/-- Key membership, modelling Python `k in d`. -/
def alHasKey {κ α : Type} [DecidableEq κ] (l : List (κ × α)) (k : κ) : Bool :=
  (alGet l k).isSome

/-- Association-list deletion of the first binding of `k`, modelling Python
`del d[k]` on a dict that contains `k`. -/
def alErase {κ α : Type} [DecidableEq κ] : List (κ × α) → κ → List (κ × α)
  | [], _ => []
  | (k', v') :: rest, k => if k' = k then rest else (k', v') :: alErase rest k

/-- List of keys of an association list. -/
def alKeys {κ α : Type} (l : List (κ × α)) : List κ := l.map Prod.fst

/-- List of values of an association list, modelling Python `d.values()`. -/
def alValues {κ α : Type} (l : List (κ × α)) : List α := l.map Prod.snd

/-- A document: a Python dict with string keys
(`doc_managers/doc_manager_simulator.py`). -/
abbrev Doc : Type := List (String × BVal)

/-- State of the simulator `DocManager`
(`doc_managers/doc_manager_simulator.py`): `doc_dict` maps document ids to
live documents, `removed_dict` maps removed document ids to tombstone
documents. -/
structure SimState : Type where
  doc_dict : List (BVal × Doc)
  removed_dict : List (BVal × Doc)
  deriving DecidableEq, Repr

/-- The freshly constructed simulator: both dicts empty
(`DocManager.__init__`). -/
def simEmpty : SimState := ⟨[], []⟩

/-- Embeds `DocManager.upsert` (doc_manager_simulator.py lines 68-81): raise
if the doc's `_upsert_exception` field is truthy, set `doc['ns']` and
`doc['_ts']`, store the doc under `doc['_id']` (KeyError if absent), and
drop that id from `removed_dict` if present. -/
def simUpsert (doc : Doc) (ns : String) (timestamp : Int) (st : SimState) :
    Except PyErr SimState :=
  if (alGet doc "_upsert_exception").elim false pyTruthy then
    .error .upsertException
  else
    let doc := alSet doc "ns" (.vstr ns)
    let doc := alSet doc "_ts" (.vint timestamp)
    match alGet doc "_id" with
    | none => .error .keyError
    | some doc_id =>
        .ok { doc_dict := alSet st.doc_dict doc_id doc
              removed_dict :=
                if alHasKey st.removed_dict doc_id then
                  alErase st.removed_dict doc_id
                else st.removed_dict }

/-- Embeds `DocManager.remove` (doc_manager_simulator.py lines 92-104):
delete the id from `doc_dict` and record a tombstone in `removed_dict`; if
the id is not a live document, the `del` raises KeyError, which the source
converts into `OperationFailed("Document does not exist: %s" % str(id))`
before any mutation happened. -/
def simRemove (document_id : BVal) (ns : String) (timestamp : Int)
    (st : SimState) : Except PyErr SimState :=
  if alHasKey st.doc_dict document_id then
    .ok { doc_dict := alErase st.doc_dict document_id
          removed_dict :=
            alSet st.removed_dict document_id
              [("_id", document_id), ("ns", .vstr ns), ("_ts", .vint timestamp)] }
  else
    .error (.operationFailed ("Document does not exist: " ++ pyStr document_id))

/-- Numeric value of a Python object when compared against a number:
`int`, `bool` and `float` compare by value; ordering any other type against
a number raises TypeError (Python 3 semantics). -/
def pyNum : BVal → Except PyErr Rat
  | .vint n => .ok (n : Rat)
  | .vbool b => .ok (if b then 1 else 0)
  | .vfloat q => .ok q
  | _ => .error .typeError

/-- Value of `doc['_ts']` as a number (KeyError if the field is absent). -/
def docTs (d : Doc) : Except PyErr Rat :=
  match alGet d "_ts" with
  | none => .error .keyError
  | some v => pyNum v

/-- Filtering loop of `DocManager.search`: yield each doc whose `_ts` (as
`ts`) satisfies the source's literal condition
`ts <= end_ts or ts >= start_ts`. -/
def simSearchGo (start_ts end_ts : Int) : List Doc → Except PyErr (List Doc)
  | [] => .ok []
  | d :: ds => do
      let ts ← docTs d
      let rest ← simSearchGo start_ts end_ts ds
      if ts ≤ (end_ts : Rat) || ts ≥ (start_ts : Rat) then .ok (d :: rest)
      else .ok rest

/-- Embeds `DocManager.search` (doc_manager_simulator.py lines 106-123): it
chains `doc_dict.values()` with `removed_dict.values()` and filters; the
generator is modelled fully consumed. -/
def simSearch (st : SimState) (start_ts end_ts : Int) :
    Except PyErr (List Doc) :=
  simSearchGo start_ts end_ts (alValues st.doc_dict ++ alValues st.removed_dict)

/-- Folding loop of Python `max(docs, key=lambda x: x["_ts"])`: keep the
current maximum, replacing it only on a strictly greater key, so the first
maximal element wins. -/
def pyMaxByTsGo (cur : Doc) (curTs : Rat) : List Doc → Except PyErr Doc
  | [] => .ok cur
  | d :: ds => do
      let ts ← docTs d
      if ts > curTs then pyMaxByTsGo d ts ds else pyMaxByTsGo cur curTs ds

/-- Embeds `DocManager.get_last_doc` (doc_manager_simulator.py lines
130-135): `max` over the chained live and removed documents keyed by `_ts`;
Python's `max` raises ValueError on an empty sequence. -/
def simGetLastDoc (st : SimState) : Except PyErr Doc :=
  match alValues st.doc_dict ++ alValues st.removed_dict with
  | [] => .error .valueError
  | d :: ds => do
      let ts ← docTs d
      pyMaxByTsGo d ts ds

/-- One call against the simulator sink: an upsert or a remove with its
arguments. -/
inductive SinkOp : Type where
  | opUpsert (doc : Doc) (ns : String) (timestamp : Int)
  | opRemove (document_id : BVal) (ns : String) (timestamp : Int)

/-- Applies one sink call; a raised exception leaves the simulator state
unchanged (in the source both `upsert` and `remove` raise before mutating
any state). -/
def applySinkOp (st : SimState) : SinkOp → SimState
  | .opUpsert doc ns ts =>
      match simUpsert doc ns ts st with
      | .ok st' => st'
      | .error _ => st
  | .opRemove i ns ts =>
      match simRemove i ns ts st with
      | .ok st' => st'
      | .error _ => st


/-- Keys of the empty association list. -/
theorem alKeys_nil {κ α : Type} : alKeys ([] : List (κ × α)) = [] := rfl

/-- Keys of a cons cell. -/
theorem alKeys_cons {κ α : Type} (p : κ × α) (rest : List (κ × α)) :
    alKeys (p :: rest) = p.1 :: alKeys rest := rfl

/-- A lookup misses exactly when the key is absent. -/
theorem alGet_none_iff {κ α : Type} [DecidableEq κ] (l : List (κ × α)) (k : κ) :
    alGet l k = none ↔ k ∉ alKeys l := by
  induction l with
  | nil => simp [alGet, alKeys]
  | cons p rest ih =>
    obtain ⟨k', v'⟩ := p
    by_cases h : k' = k
    · subst h; simp [alGet, alKeys_cons]
    · rw [alKeys_cons]
      simp only [alGet, h, if_false, List.mem_cons, ih]
      constructor
      · rintro hk (rfl | hm)
        · exact h rfl
        · exact hk hm
      · intro hk hm
        exact hk (Or.inr hm)

/-- Key membership test agrees with membership in the key list. -/
theorem alHasKey_iff {κ α : Type} [DecidableEq κ] (l : List (κ × α)) (k : κ) :
    alHasKey l k = true ↔ k ∈ alKeys l := by
  rw [alHasKey, Option.isSome_iff_ne_none, ne_eq, alGet_none_iff, not_not]

/-- Keys after an update: the old keys plus the updated key. -/
theorem mem_alKeys_alSet {κ α : Type} [DecidableEq κ] (l : List (κ × α))
    (k x : κ) (v : α) : x ∈ alKeys (alSet l k v) ↔ x ∈ alKeys l ∨ x = k := by
  induction l with
  | nil => simp [alSet, alKeys]
  | cons p rest ih =>
    obtain ⟨k', v'⟩ := p
    by_cases h : k' = k
    · subst h
      simp [alSet, alKeys_cons]
      tauto
    · simp only [alSet, h, if_false, alKeys_cons, List.mem_cons, ih]
      tauto

/-- An update keeps the key list duplicate-free. -/
theorem alKeys_alSet_nodup {κ α : Type} [DecidableEq κ] (l : List (κ × α))
    (k : κ) (v : α) (h : (alKeys l).Nodup) : (alKeys (alSet l k v)).Nodup := by
  induction l with
  | nil => simp [alSet, alKeys]
  | cons p rest ih =>
    obtain ⟨k', v'⟩ := p
    rw [alKeys_cons, List.nodup_cons] at h
    by_cases hk : k' = k
    · subst hk
      simpa [alSet, alKeys_cons] using h
    · simp only [alSet, hk, if_false, alKeys_cons, List.nodup_cons]
      refine ⟨fun hmem => ?_, ih h.2⟩
      rcases (mem_alKeys_alSet rest k k' v).1 hmem with h1 | h1
      · exact h.1 h1
      · exact hk h1

/-- Deletion yields a sublist. -/
theorem alErase_sublist {κ α : Type} [DecidableEq κ] (l : List (κ × α))
    (k : κ) : List.Sublist (alErase l k) l := by
  induction l with
  | nil => simp [alErase]
  | cons p rest ih =>
    obtain ⟨k', v'⟩ := p
    by_cases h : k' = k
    · simp only [alErase, h, if_true]
      exact List.sublist_cons_self _ _
    · simp only [alErase, h, if_false]
      exact List.Sublist.cons₂ _ ih

/-- Keys after a deletion form a sublist of the old keys. -/
theorem alKeys_alErase_sublist {κ α : Type} [DecidableEq κ] (l : List (κ × α))
    (k : κ) : List.Sublist (alKeys (alErase l k)) (alKeys l) :=
  List.Sublist.map Prod.fst (alErase_sublist l k)

/-- On a duplicate-free dict, deletion removes the key entirely. -/
theorem not_mem_alKeys_alErase {κ α : Type} [DecidableEq κ] (l : List (κ × α))
    (k : κ) (h : (alKeys l).Nodup) : k ∉ alKeys (alErase l k) := by
  induction l with
  | nil => simp [alErase, alKeys]
  | cons p rest ih =>
    obtain ⟨k', v'⟩ := p
    rw [alKeys_cons, List.nodup_cons] at h
    by_cases hk : k' = k
    · subst hk; simpa [alErase, alKeys] using h.1
    · simp only [alErase, hk, if_false, alKeys_cons, List.mem_cons]
      rintro (h1 | h1)
      · exact hk h1.symm
      · exact ih h.2 h1

/-- Updating twice with the same key and value is the same as updating
once. -/
theorem alSet_alSet {κ α : Type} [DecidableEq κ] (l : List (κ × α))
    (k : κ) (v : α) : alSet (alSet l k v) k v = alSet l k v := by
  induction l with
  | nil => simp [alSet]
  | cons p rest ih =>
    obtain ⟨k', v'⟩ := p
    by_cases h : k' = k <;> simp [alSet, h, ih]

/-- Replaying a successful upsert with the same arguments succeeds again and
leaves the state as after the first call (the `removed_dict` keys must be
duplicate-free, as every Python dict's are). -/
theorem simUpsert_replay {doc : Doc} {ns : String} {ts : Int}
    {st st' : SimState} (hnd : (alKeys st.removed_dict).Nodup)
    (h : simUpsert doc ns ts st = .ok st') :
    simUpsert doc ns ts st' = .ok st' := by
  unfold simUpsert at h ⊢
  by_cases hexc : ((alGet doc "_upsert_exception").elim false pyTruthy) = true
  · simp [hexc] at h
  · simp only [hexc, Bool.false_eq_true, if_false] at h ⊢
    rcases hid : alGet (alSet (alSet doc "ns" (.vstr ns)) "_ts" (.vint ts)) "_id"
      with _ | doc_id
    · simp [hid] at h
    · simp only [hid] at h ⊢
      rw [Except.ok.injEq] at h
      subst h
      simp only [Except.ok.injEq]
      by_cases hmem : alHasKey st.removed_dict doc_id = true
      · have hnotmem :
            alHasKey (alErase st.removed_dict doc_id) doc_id = false := by
          rw [Bool.eq_false_iff, ne_eq, alHasKey_iff]
          exact not_mem_alKeys_alErase _ _ hnd
        simp [hmem, hnotmem, alSet_alSet]
      · simp only [Bool.not_eq_true] at hmem
        simp [hmem, alSet_alSet]

/-- Replaying a successful remove with the same arguments raises
OperationFailed and leaves the state exactly as after the first call (the
`doc_dict` keys must be duplicate-free, as every Python dict's are). -/
theorem simRemove_replay {document_id : BVal} {ns : String} {ts : Int}
    {st st' : SimState} (hnd : (alKeys st.doc_dict).Nodup)
    (h : simRemove document_id ns ts st = .ok st') :
    simRemove document_id ns ts st' =
        .error (.operationFailed ("Document does not exist: " ++
          pyStr document_id)) ∧
      applySinkOp st' (.opRemove document_id ns ts) = st' := by
  unfold simRemove at h
  by_cases hmem : alHasKey st.doc_dict document_id = true
  · simp only [hmem, if_true, Except.ok.injEq] at h
    subst h
    have hgone : alHasKey (alErase st.doc_dict document_id) document_id = false := by
      rw [Bool.eq_false_iff, ne_eq, alHasKey_iff]
      exact not_mem_alKeys_alErase _ _ hnd
    constructor
    · simp [simRemove, hgone]
    · simp [applySinkOp, simRemove, hgone]
  · simp [hmem] at h

/-- Invariant of the simulator state: both dicts have duplicate-free keys
(as Python dicts do) and no id is live and removed at once. -/
def StateInv (st : SimState) : Prop :=
  (alKeys st.doc_dict).Nodup ∧ (alKeys st.removed_dict).Nodup ∧
    ∀ x, x ∈ alKeys st.doc_dict → x ∉ alKeys st.removed_dict

/-- Every sink call preserves the state invariant. -/
theorem stateInv_applySinkOp (st : SimState) (op : SinkOp)
    (h : StateInv st) : StateInv (applySinkOp st op) := by
  obtain ⟨hdd, hrm, hdisj⟩ := h
  cases op with
  | opUpsert doc ns ts =>
    show StateInv (match simUpsert doc ns ts st with
      | .ok st' => st' | .error _ => st)
    unfold simUpsert
    by_cases hexc : ((alGet doc "_upsert_exception").elim false pyTruthy) = true
    · simp only [hexc, if_true]
      exact ⟨hdd, hrm, hdisj⟩
    · simp only [hexc, Bool.false_eq_true, if_false]
      rcases alGet (alSet (alSet doc "ns" (.vstr ns)) "_ts" (.vint ts)) "_id"
        with _ | doc_id
      · exact ⟨hdd, hrm, hdisj⟩
      · refine ⟨alKeys_alSet_nodup _ _ _ hdd, ?_, ?_⟩
        · by_cases hmem : alHasKey st.removed_dict doc_id = true
          · simp only [hmem, if_true]
            exact ((alErase_sublist _ _).map Prod.fst).nodup hrm
          · simp only [hmem, Bool.false_eq_true, if_false]
            exact hrm
        · intro x hx
          rcases (mem_alKeys_alSet _ _ _ _).1 hx with hx' | hx'
          · by_cases hmem : alHasKey st.removed_dict doc_id = true
            · simp only [hmem, if_true]
              intro hc
              exact hdisj x hx' ((alKeys_alErase_sublist _ _).mem hc)
            · simp only [hmem, Bool.false_eq_true, if_false]
              exact hdisj x hx'
          · subst hx'
            by_cases hmem : alHasKey st.removed_dict x = true
            · simp only [hmem, if_true]
              exact not_mem_alKeys_alErase _ _ hrm
            · simp only [hmem, Bool.false_eq_true, if_false]
              rw [alHasKey_iff] at hmem
              exact hmem
  | opRemove document_id ns ts =>
    show StateInv (match simRemove document_id ns ts st with
      | .ok st' => st' | .error _ => st)
    unfold simRemove
    by_cases hmem : alHasKey st.doc_dict document_id = true
    · simp only [hmem, if_true]
      refine ⟨((alErase_sublist _ _).map Prod.fst).nodup hdd,
        alKeys_alSet_nodup _ _ _ hrm, ?_⟩
      intro x hx
      have hxdd : x ∈ alKeys st.doc_dict := (alKeys_alErase_sublist _ _).mem hx
      have hxne : x ≠ document_id := by
        intro hc
        subst hc
        exact not_mem_alKeys_alErase _ _ hdd hx
      intro hc
      rcases (mem_alKeys_alSet _ _ _ _).1 hc with hc' | hc'
      · exact hdisj x hxdd hc'
      · exact hxne hc'
    · simp only [hmem, Bool.false_eq_true, if_false]
      exact ⟨hdd, hrm, hdisj⟩

/-- The invariant holds after any operation sequence from the empty sink. -/
theorem stateInv_run (ops : List SinkOp) :
    StateInv (ops.foldl applySinkOp simEmpty) := by
  have hgen : ∀ st, StateInv st → StateInv (ops.foldl applySinkOp st) := by
    induction ops with
    | nil => intro st h; exact h
    | cons op rest ih =>
      intro st h
      exact ih _ (stateInv_applySinkOp st op h)
  exact hgen simEmpty ⟨List.nodup_nil, List.nodup_nil, by simp [simEmpty, alKeys]⟩

/-- C2: refuted as stated — the source's filter `ts <= end_ts or ts >=
start_ts` is a tautology whenever `start_ts ≤ end_ts`, so `search` yields
documents outside the inclusive range. Here a sink holding one document with
`_ts = 10` (reached by a single upsert) is searched with
`start_ts = 20, end_ts = 30`: the document is yielded although
`20 ≤ 10 ≤ 30` fails, contradicting the claim that only documents inside the
range appear. -/
theorem C2_search_yields_doc_outside_range :
    simUpsert [("_id", .vstr "a")] "test.t" 10 simEmpty =
      .ok ⟨[(.vstr "a",
            [("_id", .vstr "a"), ("ns", .vstr "test.t"), ("_ts", .vint 10)])],
          []⟩ ∧
    simSearch
        ⟨[(.vstr "a",
          [("_id", .vstr "a"), ("ns", .vstr "test.t"), ("_ts", .vint 10)])],
         []⟩ 20 30 =
      .ok [[("_id", .vstr "a"), ("ns", .vstr "test.t"), ("_ts", .vint 10)]] ∧
    ¬((20 : Int) ≤ 10 ∧ (10 : Int) ≤ 30) := by
  refine ⟨by decide, by decide, by decide⟩

/-- C3 counterexample: removing an id that is not at the sink does raise —
on the empty simulator, `remove` returns OperationFailed rather than
succeeding with the state unchanged, refuting the claim as stated. -/
theorem C3_remove_missing_raises :
    simRemove (.vstr "x") "test.t" 5 simEmpty =
      .error (.operationFailed "Document does not exist: x") := by
  decide

/-- C3 as amended: for every sink state and every document id that is not a
key of the live store, `remove(id, ns, position)` raises
`OperationFailed("Document does not exist: …")` and leaves the sink state
unchanged. -/
theorem C3_remove_missing_error_and_unchanged
    (st : SimState) (document_id : BVal) (ns : String) (timestamp : Int)
    (h : alHasKey st.doc_dict document_id = false) :
    simRemove document_id ns timestamp st =
        .error (.operationFailed ("Document does not exist: " ++
          pyStr document_id)) ∧
      applySinkOp st (.opRemove document_id ns timestamp) = st := by
  constructor
  · simp [simRemove, h]
  · simp [applySinkOp, simRemove, h]

/-- Witness for C3's amended theorem at a concrete input. -/
theorem C3_remove_missing_error_and_unchanged_witness :
    simRemove (.vstr "y") "db.c" 7 simEmpty =
        .error (.operationFailed ("Document does not exist: " ++
          pyStr (.vstr "y"))) ∧
      applySinkOp simEmpty (.opRemove (.vstr "y") "db.c" 7) = simEmpty :=
  C3_remove_missing_error_and_unchanged simEmpty (.vstr "y") "db.c" 7 (by decide)

/-- C4 counterexample: replaying a remove does not succeed twice — after
removing the only document of a one-document sink, repeating the same
`remove` raises OperationFailed, refuting the claim that both calls
succeed. -/
theorem C4_remove_replay_raises :
    simRemove (.vstr "a") "t.t" 2
        ⟨[(.vstr "a",
          [("_id", .vstr "a"), ("ns", .vstr "t.t"), ("_ts", .vint 1)])], []⟩ =
      .ok ⟨[], [(.vstr "a",
            [("_id", .vstr "a"), ("ns", .vstr "t.t"), ("_ts", .vint 2)])]⟩ ∧
    simRemove (.vstr "a") "t.t" 2
        ⟨[], [(.vstr "a",
          [("_id", .vstr "a"), ("ns", .vstr "t.t"), ("_ts", .vint 2)])]⟩ =
      .error (.operationFailed "Document does not exist: a") := by
  refine ⟨by decide, by decide⟩

/-- C4 as amended: replay is idempotent at the state level, but only upsert
also succeeds on replay. For every sink state whose dict keys are
duplicate-free, replaying a successful `upsert(doc, ns, ts)` succeeds and
returns exactly the state the first call produced, while replaying a
successful `remove(id, ns, ts)` raises OperationFailed and leaves the state
exactly as after the first call. -/
theorem C4_replay_idempotent :
    (∀ (doc : Doc) (ns : String) (ts : Int) (st st' : SimState),
        (alKeys st.removed_dict).Nodup →
        simUpsert doc ns ts st = .ok st' →
        simUpsert doc ns ts st' = .ok st') ∧
    (∀ (document_id : BVal) (ns : String) (ts : Int) (st st' : SimState),
        (alKeys st.doc_dict).Nodup →
        simRemove document_id ns ts st = .ok st' →
        simRemove document_id ns ts st' =
            .error (.operationFailed ("Document does not exist: " ++
              pyStr document_id)) ∧
          applySinkOp st' (.opRemove document_id ns ts) = st') := by
  constructor
  · intro doc ns ts st st' hnd h
    exact simUpsert_replay hnd h
  · intro document_id ns ts st st' hnd h
    exact simRemove_replay hnd h

/-- Witness for C4's amended theorem at concrete inputs. -/
theorem C4_replay_idempotent_witness :
    simUpsert [("_id", .vstr "a")] "t.t" 3
        ⟨[(.vstr "a",
          [("_id", .vstr "a"), ("ns", .vstr "t.t"), ("_ts", .vint 3)])], []⟩ =
      .ok ⟨[(.vstr "a",
            [("_id", .vstr "a"), ("ns", .vstr "t.t"), ("_ts", .vint 3)])], []⟩ ∧
    simRemove (.vstr "a") "t.t" 4
        ⟨[], [(.vstr "a",
          [("_id", .vstr "a"), ("ns", .vstr "t.t"), ("_ts", .vint 4)])]⟩ =
      .error (.operationFailed ("Document does not exist: " ++
        pyStr (.vstr "a"))) := by
  constructor
  · exact C4_replay_idempotent.1 [("_id", .vstr "a")] "t.t" 3
      ⟨[], []⟩
      ⟨[(.vstr "a",
        [("_id", .vstr "a"), ("ns", .vstr "t.t"), ("_ts", .vint 3)])], []⟩
      (by decide) (by decide)
  · exact (C4_replay_idempotent.2 (.vstr "a") "t.t" 4
      ⟨[(.vstr "a",
        [("_id", .vstr "a"), ("ns", .vstr "t.t"), ("_ts", .vint 1)])], []⟩
      ⟨[], [(.vstr "a",
        [("_id", .vstr "a"), ("ns", .vstr "t.t"), ("_ts", .vint 4)])]⟩
      (by decide) (by decide)).1

/-- C5: refuted on the empty sink — `get_last_doc` is `max(...)` over the
chained live and removed documents with no empty-sequence guard, so on a
sink holding no documents it raises ValueError instead of returning
nothing. -/
theorem C5_get_last_doc_empty_raises :
    simGetLastDoc simEmpty = .error .valueError := by
  decide

/-- C10: starting from the empty simulator sink, after any sequence of
upsert and remove operations no document id is simultaneously a key of the
live-document store and of the removed-document store. -/
theorem C10_live_removed_disjoint (ops : List SinkOp) :
    ∀ x, x ∈ alKeys ((ops.foldl applySinkOp simEmpty).doc_dict) →
      x ∉ alKeys ((ops.foldl applySinkOp simEmpty).removed_dict) :=
  (stateInv_run ops).2.2

/-- Witness for C10 at a concrete operation sequence. -/
theorem C10_live_removed_disjoint_witness :
    BVal.vstr "a" ∈ alKeys (([SinkOp.opUpsert [("_id", .vstr "a")] "t.t" 1,
        SinkOp.opRemove (.vstr "b") "t.t" 2].foldl applySinkOp
          simEmpty).doc_dict) ∧
    BVal.vstr "a" ∉ alKeys (([SinkOp.opUpsert [("_id", .vstr "a")] "t.t" 1,
        SinkOp.opRemove (.vstr "b") "t.t" 2].foldl applySinkOp
          simEmpty).removed_dict) :=
  ⟨by decide, C10_live_removed_disjoint _ _ (by decide)⟩

/-- Character `n` of the base64 alphabet. -/
def b64char (n : Nat) : Char :=
  ("ABCDEFGHIJKLMNOPQRSTUVWXYZabcdefghijklmnopqrstuvwxyz0123456789+/").toList.getD n 'A'

/-- Standard base64 of a byte list, three bytes to four characters with `=`
padding (Python `base64.b64encode`). -/
def b64encodeChunks : List Nat → List Char
  | [] => []
  | [a] => [b64char (a / 4 % 64), b64char (a % 4 * 16), '=', '=']
  | [a, b] =>
      [b64char (a / 4 % 64), b64char (a % 4 * 16 + b / 16 % 16),
       b64char (b % 16 * 4), '=']
  | a :: b :: c :: rest =>
      b64char (a / 4 % 64) :: b64char (a % 4 * 16 + b / 16 % 16) ::
        b64char (b % 16 * 4 + c / 64 % 4) :: b64char (c % 64) ::
        b64encodeChunks rest

/-- Python `base64.b64encode` on a `bson.Binary` byte list, as a string. -/
def b64encode (bs : List Nat) : String := String.mk (b64encodeChunks bs)

/-- Python `dict(pairs)`: an empty dict updated with each pair in order, so
duplicate keys keep their first-occurrence position and take their last
value. -/
def pyDict {κ α : Type} [DecidableEq κ] (l : List (κ × α)) : List (κ × α) :=
  l.foldl (fun d p => alSet d p.1 p.2) []

/-- Keys distribute over append. -/
theorem alKeys_append {κ α : Type} (l₁ l₂ : List (κ × α)) :
    alKeys (l₁ ++ l₂) = alKeys l₁ ++ alKeys l₂ :=
  List.map_append _ _ _

/-- Updating an absent key appends the binding. -/
theorem alSet_append_of_not_mem {κ α : Type} [DecidableEq κ]
    (l : List (κ × α)) (k : κ) (v : α) (h : k ∉ alKeys l) :
    alSet l k v = l ++ [(k, v)] := by
  induction l with
  | nil => rfl
  | cons p rest ih =>
    obtain ⟨k', v'⟩ := p
    rw [alKeys_cons, List.mem_cons] at h
    push_neg at h
    rw [alSet, if_neg (fun hc => h.1 hc.symm), List.cons_append, ih h.2]

/-- On duplicate-free keys, folding dict updates just appends. -/
theorem pyDict_foldl_eq {κ α : Type} [DecidableEq κ] (l : List (κ × α)) :
    ∀ acc : List (κ × α), (alKeys (acc ++ l)).Nodup →
      l.foldl (fun d p => alSet d p.1 p.2) acc = acc ++ l := by
  induction l with
  | nil => intro acc _; simp
  | cons p rest ih =>
    obtain ⟨k, v⟩ := p
    intro acc h
    have hk : k ∉ alKeys acc := by
      rw [alKeys_append, alKeys_cons] at h
      intro hc
      exact (List.disjoint_of_nodup_append h) hc (List.mem_cons_self _ _)
    have hperm : alKeys ((acc ++ [(k, v)]) ++ rest) = alKeys (acc ++ (k, v) :: rest) := by
      simp [alKeys_append, alKeys_cons, alKeys]
    rw [List.foldl_cons]
    show rest.foldl (fun d p => alSet d p.1 p.2) (alSet acc k v) = acc ++ (k, v) :: rest
    rw [alSet_append_of_not_mem acc k v hk, ih (acc ++ [(k, v)]) (by rw [hperm]; exact h)]
    simp

/-- On pairs with duplicate-free keys, `dict()` reconstruction is the
identity. -/
theorem pyDict_eq_self {κ α : Type} [DecidableEq κ] (l : List (κ × α))
    (h : (alKeys l).Nodup) : pyDict l = l := by
  have := pyDict_foldl_eq l [] (by simpa using h)
  simpa [pyDict] using this

/-- Identifies the distinct function objects stored in
`DefaultDocumentFormatter.types_mapping` (formatters.py lines 43-53):
`identityFn` is the single `identity` lambda bound to `int`, `long` and
`float`; `b64encodeFn` is `base64.b64encode` bound to `bson.Binary`;
`listFn` is the list lambda; `dictFn` is the bound method
`self.format_document`. -/
inductive Tag : Type where
  | identityFn
  | b64encodeFn
  | listFn
  | dictFn
  deriving DecidableEq, Repr

/-- The result of a formatter: either a Python value shape (mirroring
`BVal`) or, through the list branch of the Default formatter, an unapplied
transformer function object. -/
inductive TVal : Type where
  | tint (n : Int)
  | tbool (b : Bool)
  | tfloat (q : Rat)
  | tstr (s : String)
  | tbin (bytes : List Nat)
  | tother (str : String) (truthy : Bool)
  | tlist (items : List TVal)
  | tdoc (fields : List (String × TVal))
  | tfunc (tag : Tag)
  deriving Repr

/-- Embeds the `types_mapping` lookup
`self.types_mapping.get(type(value))` of `DefaultDocumentFormatter`
(formatters.py lines 43-53). Dispatch is on the exact concrete type, so
`bool` (a subclass of `int`), plain `bytes` (superclass of `bson.Binary`)
and every unlisted type miss the mapping. -/
def typesMappingTag : BVal → Option Tag
  | .vbin _ => some .b64encodeFn
  | .vlist _ => some .listFn
  | .vdoc _ => some .dictFn
  | .vint _ => some .identityFn
  | .vfloat _ => some .identityFn
  | _ => none

mutual

/-- Embeds `DefaultDocumentFormatter.transform_value` (formatters.py lines
55-60), with the `types_mapping` lookup (lines 45-53) inlined per concrete
type: `transformer = self.types_mapping.get(type(value))`, then
`transformer(value)` when an entry exists, else `str(value)`. `bson.Binary`
maps to `base64.b64encode`; `list` maps to
`lambda l: [self.types_mapping[type(el)] for el in l]`, which collects the
transformer function objects themselves (it never applies them) and raises
KeyError on an element whose type has no entry; `dict` maps to the bound
method `self.format_document`; `int`, `long` and `float` map to the shared
`identity` lambda, which returns its argument unchanged. Dispatch is on the
exact concrete type, so `bool`, plain `bytes`, `str` and all other types
miss the mapping and are stringified. -/
def defaultTransformValue : BVal → Except PyErr TVal
  | .vbin bs => .ok (.tstr (b64encode bs))
  | .vlist l =>
      (l.mapM (fun el =>
        match typesMappingTag el with
        | some t => Except.ok (TVal.tfunc t)
        | none => Except.error PyErr.keyError)).map .tlist
  | .vdoc d => (defaultFormatDocument d).map .tdoc
  | .vint n => .ok (.tint n)
  | .vfloat q => .ok (.tfloat q)
  | v => .ok (.tstr (pyStr v))

/-- Embeds `DefaultDocumentFormatter.format_document` (formatters.py lines
65-70), `dict(_kernel(document))`, where `_kernel` does
`yield self.transform_element(key, value)` — it yields the
`transform_element` generator OBJECT for each key, not that generator's
key-value pair. `dict` therefore receives a sequence of generators: on an
empty document it builds the empty dict, and on a non-empty document it
materializes the first generator — running `transform_value(value)`, whose
exception propagates — and then rejects the resulting length-1 sequence
with ValueError ("dictionary update sequence element #0 has length 1;
2 is required"), never reaching the remaining keys. -/
def defaultFormatDocument : List (String × BVal) → Except PyErr (List (String × TVal))
  | [] => .ok []
  | (_, v) :: _ =>
      match defaultTransformValue v with
      | .error e => .error e
      | .ok _ => .error .valueError

end

/-- Python `".".join(path)`. -/
def joinDot : List String → String
  | [] => ""
  | [s] => s
  | s :: rest => s ++ "." ++ joinDot rest

/-- Joining after appending one component appends it dot-separated. -/
theorem joinDot_append_singleton (path : List String) (k : String)
    (h : path ≠ []) :
    joinDot (path ++ [k]) = joinDot path ++ "." ++ k := by
  induction path with
  | nil => cases h rfl
  | cons a rest ih =>
    cases rest with
    | nil => rfl
    | cons b rs =>
      have hne : b :: rs ≠ [] := by simp
      calc joinDot ((a :: b :: rs) ++ [k])
          = a ++ "." ++ joinDot ((b :: rs) ++ [k]) := rfl
        _ = a ++ "." ++ (joinDot (b :: rs) ++ "." ++ k) := by rw [ih hne]
        _ = (a ++ "." ++ joinDot (b :: rs)) ++ "." ++ k := by
              simp [String.append_assoc]
        _ = joinDot (a :: b :: rs) ++ "." ++ k := rfl

/-- The `path_string` prefixing of one pair yielded by the `flatten`
generator (formatters.py lines 130-133): unchanged at top level, otherwise
the key gains the joined path as a dotted prefix. -/
def prefixPair (path : List String) (p : String × TVal) : String × TVal :=
  if path.isEmpty then p else (joinDot path ++ "." ++ p.1, p.2)

mutual

/-- Embeds `DocumentFlattener.transform_value` (formatters.py lines
91-100): `isinstance` dispatch, so `bool` counts as a number and is kept;
the `dict` branch calls `self.transform_document`, a method that does not
exist anywhere, hence AttributeError (it is unreachable from
`format_document`, which handles dicts before calling
`transform_value`). -/
def flatTransformValue : BVal → Except PyErr TVal
  | .vdoc _ => .error .attributeError
  | .vlist l => (flatTransformValueList l).map .tlist
  | .vfloat q => .ok (.tfloat q)
  | .vint n => .ok (.tint n)
  | .vbool b => .ok (.tbool b)
  | .vbin bs => .ok (.tstr (b64encode bs))
  | v => .ok (.tstr (pyStr v))

/-- The list comprehension `[self.transform_value(v) for v in value]` of
`DocumentFlattener.transform_value`. -/
def flatTransformValueList : List BVal → Except PyErr (List TVal)
  | [] => .ok []
  | v :: vs => do
      let tv ← flatTransformValue v
      let tr ← flatTransformValueList vs
      .ok (tv :: tr)

/-- Embeds `DocumentFlattener.transform_element` (formatters.py lines
102-113): lists are unwound element by element under keys `key.i`, dict
values are flattened by `format_document` (inlined here as
`dict(flatten(value, []))`) and re-keyed under `key.subkey`, and any other
value becomes a single `(key, transform_value(value))` pair. -/
def flatTransformElement (key : String) : BVal → Except PyErr (List (String × TVal))
  | .vlist l => flatTransformElemList key 0 l
  | .vdoc d =>
      ((flatFlatten [] d).map pyDict).map (fun formatted =>
        formatted.map (fun p => (key ++ "." ++ p.1, p.2)))
  | v => (flatTransformValue v).map (fun tv => [(key, tv)])

/-- The `enumerate` loop of `DocumentFlattener.transform_element`
(formatters.py lines 103-107), carrying the running index. -/
def flatTransformElemList (key : String) (i : Nat) :
    List BVal → Except PyErr (List (String × TVal))
  | [] => .ok []
  | lv :: rest => do
      let first ← flatTransformElement (key ++ "." ++ toString i) lv
      let more ← flatTransformElemList key (i + 1) rest
      .ok (first ++ more)

/-- The `flatten` generator of `DocumentFlattener.format_document`
(formatters.py lines 116-133), with the mutable `path` list passed
explicitly: dict values recurse with the key pushed on the path, all other
values go through `transform_element` and are prefixed with the joined
path unless at top level. -/
def flatFlatten (path : List String) :
    List (String × BVal) → Except PyErr (List (String × TVal))
  | [] => .ok []
  | (k, .vdoc dv) :: rest => do
      let inner ← flatFlatten (path ++ [k]) dv
      let more ← flatFlatten path rest
      .ok (inner ++ more)
  | (k, v) :: rest => do
      let transformed ← flatTransformElement k v
      let more ← flatFlatten path rest
      .ok (transformed.map (prefixPair path) ++ more)

end

/-- Embeds `DocumentFlattener.format_document` (formatters.py lines
115-134): `dict(flatten(document, []))`. -/
def flatFormatDocument (d : List (String × BVal)) :
    Except PyErr (List (String × TVal)) :=
  (flatFlatten [] d).map pyDict

mutual

/-- Dotted-path leaves of a value rooted at `key`: list elements are
addressed by numeric index, keys of nested dicts are joined with `.`, and
any non-container value is itself a leaf. -/
def valLeaves (key : String) : BVal → List (String × BVal)
  | .vlist l => valLeavesList key 0 l
  | .vdoc d => (docLeaves d).map (fun p => (key ++ "." ++ p.1, p.2))
  | v => [(key, v)]

/-- Leaves of the elements of a list, indexed from `i`. -/
def valLeavesList (key : String) (i : Nat) : List BVal → List (String × BVal)
  | [] => []
  | v :: vs => valLeaves (key ++ "." ++ toString i) v ++ valLeavesList key (i + 1) vs

/-- Dotted-path leaves of a document. -/
def docLeaves : List (String × BVal) → List (String × BVal)
  | [] => []
  | (k, v) :: rest => valLeaves k v ++ docLeaves rest

end

/-- The flattener's transformation of a leaf value: numbers (booleans
included, by `isinstance`) are kept, binary is base64-encoded, everything
else is stringified. Containers never occur as leaves; their clauses are
dead stand-ins. -/
def leafTransform : BVal → TVal
  | .vint n => .tint n
  | .vbool b => .tbool b
  | .vfloat q => .tfloat q
  | .vbin bs => .tstr (b64encode bs)
  | .vlist _ => .tstr "<list>"
  | .vdoc _ => .tstr "<dict>"
  | v => .tstr (pyStr v)

/-- Applies the leaf transformation to every leaf of a dotted-path
enumeration. -/
def leafMap (ps : List (String × BVal)) : List (String × TVal) :=
  ps.map (fun p => (p.1, leafTransform p.2))

/-- At top level the prefixing is the identity. -/
theorem prefixPair_nil (p : String × TVal) : prefixPair [] p = p := rfl

/-- Pushing a component on the path is the same as prefixing the key with
that component before prefixing with the path. -/
theorem prefixPair_append_singleton (path : List String) (k : String)
    (p : String × TVal) :
    prefixPair (path ++ [k]) p = prefixPair path (k ++ "." ++ p.1, p.2) := by
  cases path with
  | nil => simp [prefixPair, joinDot]
  | cons a rest =>
    simp only [prefixPair, List.isEmpty_cons, List.cons_append, if_neg]
    have hj : joinDot (a :: (rest ++ [k])) = joinDot (a :: rest) ++ "." ++ k := by
      have := joinDot_append_singleton (a :: rest) k (by simp)
      simpa using this
    simp [hj, String.append_assoc]

/-- Re-keying commutes with taking keys. -/
theorem alKeys_map_rekey {α : Type} (f : String → String)
    (ps : List (String × α)) :
    alKeys (ps.map (fun p => (f p.1, p.2))) = (alKeys ps).map f := by
  induction ps with
  | nil => rfl
  | cons p rest ih => simp [alKeys, ih]

/-- `leafMap` distributes over append. -/
theorem leafMap_append (a b : List (String × BVal)) :
    leafMap (a ++ b) = leafMap a ++ leafMap b :=
  List.map_append _ _ _

/-- `leafMap` commutes with re-keying. -/
theorem leafMap_rekey (f : String → String) (ps : List (String × BVal)) :
    leafMap (ps.map (fun p => (f p.1, p.2))) =
      (leafMap ps).map (fun p => (f p.1, p.2)) := by
  induction ps with
  | nil => rfl
  | cons p rest ih => simp [leafMap, ih]

/-- `leafMap` keeps the keys. -/
theorem alKeys_leafMap (ps : List (String × BVal)) :
    alKeys (leafMap ps) = alKeys ps := by
  induction ps with
  | nil => rfl
  | cons p rest ih => simp [leafMap, alKeys, ih]

/-- Dotted re-keying commutes with taking keys (instance of
`alKeys_map_rekey` at the key shape the flattener uses). -/
theorem alKeys_rekeyDot {α : Type} (key : String) (ps : List (String × α)) :
    alKeys (ps.map (fun p => (key ++ "." ++ p.1, p.2))) =
      (alKeys ps).map (fun s => key ++ "." ++ s) := by
  induction ps with
  | nil => rfl
  | cons p rest ih => simp [alKeys, ih]

/-- `leafMap` commutes with dotted re-keying. -/
theorem leafMap_rekeyDot (key : String) (ps : List (String × BVal)) :
    leafMap (ps.map (fun p => (key ++ "." ++ p.1, p.2))) =
      (leafMap ps).map (fun p => (key ++ "." ++ p.1, p.2)) := by
  induction ps with
  | nil => rfl
  | cons p rest ih => simp [leafMap, ih]

/-- Step of the `flatten` generator for a non-dict value: transform the
element and prefix the resulting pairs with the path. -/
theorem flatFlatten_cons_step (path : List String) (k : String) (v : BVal)
    (rest : List (String × BVal))
    (hunfold : flatFlatten path ((k, v) :: rest) =
      (flatTransformElement k v).bind (fun transformed =>
        (flatFlatten path rest).bind (fun more =>
          Except.ok (transformed.map (prefixPair path) ++ more))))
    (hA : flatTransformElement k v = .ok (leafMap (valLeaves k v)))
    (hC : flatFlatten path rest =
        .ok ((leafMap (docLeaves rest)).map (prefixPair path))) :
    flatFlatten path ((k, v) :: rest) =
      .ok ((leafMap (docLeaves ((k, v) :: rest))).map (prefixPair path)) := by
  rw [hunfold, hA, hC]
  show Except.ok _ = _
  rw [docLeaves, leafMap_append, List.map_append]

mutual

/-- `transform_element` produces exactly the transformed dotted leaves of
its value, provided the leaf paths are collision-free. -/
theorem flatElement_eq : ∀ (key : String) (v : BVal),
    (alKeys (valLeaves key v)).Nodup →
    flatTransformElement key v = .ok (leafMap (valLeaves key v))
  | _, .vint _, _ => rfl
  | _, .vbool _, _ => rfl
  | _, .vfloat _, _ => rfl
  | _, .vstr _, _ => rfl
  | _, .vbin _, _ => rfl
  | _, .vother _ _, _ => rfl
  | key, .vlist l, h => by
    have h' : (alKeys (valLeavesList key 0 l)).Nodup := by
      rw [valLeaves] at h
      exact h
    show flatTransformElemList key 0 l = .ok (leafMap (valLeaves key (.vlist l)))
    rw [valLeaves]
    exact flatElemList_eq key 0 l h'
  | key, .vdoc d, h => by
    have h1 : (alKeys (docLeaves d)).Nodup := by
      rw [valLeaves, alKeys_rekeyDot] at h
      exact h.of_map _
    have hD := flatFlatten_eq [] d h1
    have hid : (leafMap (docLeaves d)).map (prefixPair []) = leafMap (docLeaves d) := by
      have hfun : prefixPair [] = fun p => p := funext prefixPair_nil
      rw [hfun]
      simp
    calc flatTransformElement key (.vdoc d)
        = ((flatFlatten [] d).map pyDict).map (fun formatted =>
            formatted.map (fun p => (key ++ "." ++ p.1, p.2))) := rfl
      _ = .ok ((pyDict ((leafMap (docLeaves d)).map (prefixPair []))).map
            (fun p => (key ++ "." ++ p.1, p.2))) := by rw [hD]; rfl
      _ = .ok ((pyDict (leafMap (docLeaves d))).map
            (fun p => (key ++ "." ++ p.1, p.2))) := by rw [hid]
      _ = .ok ((leafMap (docLeaves d)).map (fun p => (key ++ "." ++ p.1, p.2))) := by
            rw [pyDict_eq_self _ (by rw [alKeys_leafMap]; exact h1)]
      _ = .ok (leafMap ((docLeaves d).map (fun p => (key ++ "." ++ p.1, p.2)))) := by
            rw [leafMap_rekeyDot]
      _ = .ok (leafMap (valLeaves key (.vdoc d))) := by rw [valLeaves]

/-- The enumerate loop of `transform_element` produces the indexed leaves
of the list elements. -/
theorem flatElemList_eq : ∀ (key : String) (i : Nat) (l : List BVal),
    (alKeys (valLeavesList key i l)).Nodup →
    flatTransformElemList key i l = .ok (leafMap (valLeavesList key i l))
  | _, _, [], _ => rfl
  | key, i, lv :: rest, h => by
    rw [valLeavesList, alKeys_append] at h
    have hA := flatElement_eq (key ++ "." ++ toString i) lv h.of_append_left
    have hB := flatElemList_eq key (i + 1) rest h.of_append_right
    calc flatTransformElemList key i (lv :: rest)
        = (flatTransformElement (key ++ "." ++ toString i) lv).bind (fun first =>
            (flatTransformElemList key (i + 1) rest).bind (fun more =>
              Except.ok (first ++ more))) := rfl
      _ = .ok (leafMap (valLeaves (key ++ "." ++ toString i) lv) ++
            leafMap (valLeavesList key (i + 1) rest)) := by rw [hA, hB]; rfl
      _ = .ok (leafMap (valLeavesList key i (lv :: rest))) := by
            rw [valLeavesList, leafMap_append]

/-- The `flatten` generator yields the transformed dotted leaves of the
document, each prefixed with the current path. -/
theorem flatFlatten_eq : ∀ (path : List String) (d : List (String × BVal)),
    (alKeys (docLeaves d)).Nodup →
    flatFlatten path d = .ok ((leafMap (docLeaves d)).map (prefixPair path))
  | _, [], _ => rfl
  | path, (k, .vdoc dv) :: rest, h => by
    rw [docLeaves, alKeys_append] at h
    have hdv : (alKeys (docLeaves dv)).Nodup := by
      have h1 := h.of_append_left
      rw [valLeaves, alKeys_rekeyDot] at h1
      exact h1.of_map _
    have hin := flatFlatten_eq (path ++ [k]) dv hdv
    have hre := flatFlatten_eq path rest h.of_append_right
    have hpfx : prefixPair (path ++ [k]) =
        fun p => prefixPair path (k ++ "." ++ p.1, p.2) :=
      funext (prefixPair_append_singleton path k)
    calc flatFlatten path ((k, .vdoc dv) :: rest)
        = (flatFlatten (path ++ [k]) dv).bind (fun inner =>
            (flatFlatten path rest).bind (fun more =>
              Except.ok (inner ++ more))) := rfl
      _ = .ok ((leafMap (docLeaves dv)).map (prefixPair (path ++ [k])) ++
            (leafMap (docLeaves rest)).map (prefixPair path)) := by rw [hin, hre]; rfl
      _ = .ok ((leafMap (docLeaves ((k, .vdoc dv) :: rest))).map (prefixPair path)) := by
            rw [docLeaves, valLeaves, leafMap_append, List.map_append,
              leafMap_rekeyDot, List.map_map, hpfx]
            simp [Function.comp]
  | path, (k, .vint n) :: rest, h => by
    rw [docLeaves, alKeys_append] at h
    exact flatFlatten_cons_step path k _ rest rfl
      (flatElement_eq k _ h.of_append_left)
      (flatFlatten_eq path rest h.of_append_right)
  | path, (k, .vbool b) :: rest, h => by
    rw [docLeaves, alKeys_append] at h
    exact flatFlatten_cons_step path k _ rest rfl
      (flatElement_eq k _ h.of_append_left)
      (flatFlatten_eq path rest h.of_append_right)
  | path, (k, .vfloat q) :: rest, h => by
    rw [docLeaves, alKeys_append] at h
    exact flatFlatten_cons_step path k _ rest rfl
      (flatElement_eq k _ h.of_append_left)
      (flatFlatten_eq path rest h.of_append_right)
  | path, (k, .vstr s) :: rest, h => by
    rw [docLeaves, alKeys_append] at h
    exact flatFlatten_cons_step path k _ rest rfl
      (flatElement_eq k _ h.of_append_left)
      (flatFlatten_eq path rest h.of_append_right)
  | path, (k, .vbin bs) :: rest, h => by
    rw [docLeaves, alKeys_append] at h
    exact flatFlatten_cons_step path k _ rest rfl
      (flatElement_eq k _ h.of_append_left)
      (flatFlatten_eq path rest h.of_append_right)
  | path, (k, .vother s t) :: rest, h => by
    rw [docLeaves, alKeys_append] at h
    exact flatFlatten_cons_step path k _ rest rfl
      (flatElement_eq k _ h.of_append_left)
      (flatFlatten_eq path rest h.of_append_right)
  | path, (k, .vlist l) :: rest, h => by
    rw [docLeaves, alKeys_append] at h
    exact flatFlatten_cons_step path k _ rest rfl
      (flatElement_eq k _ h.of_append_left)
      (flatFlatten_eq path rest h.of_append_right)

end

/-- True when a transformed value is not a container: in particular it is
not a map and no map can occur inside it. -/
def tvalIsScalar : TVal → Bool
  | .tdoc _ => false
  | .tlist _ => false
  | _ => true

/-- The flattener's leaf transformation always yields a scalar. -/
theorem tvalIsScalar_leafTransform (v : BVal) :
    tvalIsScalar (leafTransform v) = true := by
  cases v <;> rfl

/-- C6: refuted — `DefaultDocumentFormatter.format_document` fails on every
non-empty document. Its `_kernel` yields `transform_element` generator
objects rather than key-value pairs, so `dict(_kernel(document))` raises
ValueError already on the well-formed `a ↦ 1` (the first generator
materializes to a length-1 sequence); when the first value's transformation
itself raises, that error propagates instead, as the KeyError on the
document holding the list `["x"]` (the `types_mapping` list entry looks the
transformer of each element up by exact type, finds none for `str`, and
never applies the transformers it does find — a list of numbers maps to two
identity-function objects). Both failure modes and the unapplied-function
result refute the claimed per-key transformation and the claim that
formatting never fails on a well-formed document. -/
theorem C6_default_format_document_broken :
    defaultFormatDocument [("a", .vint 1)] = .error .valueError ∧
    defaultFormatDocument [("a", .vlist [.vstr "x"])] = .error .keyError ∧
    defaultTransformValue (.vlist [.vint 1, .vfloat 2]) =
      .ok (.tlist [.tfunc .identityFn, .tfunc .identityFn]) :=
  ⟨rfl, rfl, rfl⟩

/-- C7 counterexample: on the document with the single boolean leaf `True`,
the flattener keeps the boolean (isinstance dispatch counts `bool` as a
number), while the Default formatter's transformation of that same leaf is
the string "True" (exact-type dispatch misses `bool`); the flattened value
is therefore not the Default transformation of the leaf, refuting the
claim as stated. -/
theorem C7_flattener_not_default_on_bool :
    flatFormatDocument [("a", .vbool true)] = .ok [("a", .tbool true)] ∧
    defaultTransformValue (.vbool true) = .ok (.tstr "True") ∧
    TVal.tbool true ≠ TVal.tstr "True" :=
  ⟨rfl, rfl, fun h => TVal.noConfusion h⟩

/-- C7 (amended): for every document whose dotted leaf paths are pairwise
distinct, `DocumentFlattener.format_document` returns exactly the flat map
from each leaf's dotted path (nested dict keys joined with `.`, list
elements addressed by numeric index) to the flattener's own leaf
transformation of that leaf — numbers, booleans included, kept; binary
base64-encoded; everything else stringified — and every value of the
result is a scalar, so the result contains no nested maps and no maps
inside lists. The flattener's leaf transformation agrees with the Default
one except on leaves such as booleans whose exact type misses
`types_mapping` while satisfying `isinstance` (see the counterexample). -/
theorem C7_flattener_dotted_leaves (d : List (String × BVal))
    (h : (alKeys (docLeaves d)).Nodup) :
    flatFormatDocument d = .ok (leafMap (docLeaves d)) ∧
    ∀ p ∈ leafMap (docLeaves d), tvalIsScalar p.2 = true := by
  constructor
  · have hc := flatFlatten_eq [] d h
    have hfun : prefixPair [] = fun p => p := funext prefixPair_nil
    calc flatFormatDocument d
        = (flatFlatten [] d).map pyDict := rfl
      _ = .ok (pyDict ((leafMap (docLeaves d)).map (prefixPair []))) := by
            rw [hc]; rfl
      _ = .ok (pyDict (leafMap (docLeaves d))) := by rw [hfun]; simp
      _ = .ok (leafMap (docLeaves d)) := by
            rw [pyDict_eq_self _ (by rw [alKeys_leafMap]; exact h)]
  · intro p hp
    obtain ⟨q, _, rfl⟩ := List.mem_map.1 hp
    exact tvalIsScalar_leafTransform q.2

/-- Witness for C7's amended theorem at the example of the class
docstring. -/
theorem C7_flattener_dotted_leaves_witness :
    flatFormatDocument [("a", .vint 2),
        ("b", .vdoc [("c", .vdoc [("d", .vint 5)])]),
        ("e", .vlist [.vint 6, .vint 7, .vint 8])] =
      .ok (leafMap (docLeaves [("a", .vint 2),
        ("b", .vdoc [("c", .vdoc [("d", .vint 5)])]),
        ("e", .vlist [.vint 6, .vint 7, .vint 8])])) ∧
    leafMap (docLeaves [("a", .vint 2),
        ("b", .vdoc [("c", .vdoc [("d", .vint 5)])]),
        ("e", .vlist [.vint 6, .vint 7, .vint 8])]) =
      [("a", .tint 2), ("b.c.d", .tint 5),
       ("e.0", .tint 6), ("e.1", .tint 7), ("e.2", .tint 8)] :=
  ⟨(C7_flattener_dotted_leaves _ (by decide)).1, rfl⟩

/-- A JSON value as Python's `json.load` produces it: `null`, booleans,
integers, floats (carried by their lexeme, irrelevant to the checkpoint
logic beyond their type), strings, arrays and objects. -/
inductive JValue : Type where
  | jnull
  | jbool (b : Bool)
  | jint (n : Int)
  | jfloat (lexeme : String)
  | jstr (s : String)
  | jarr (items : List JValue)
  | jobj (fields : List (String × JValue))
  deriving Repr

mutual

/-- Structural boolean equality on JSON values. -/
def jvalBeq : JValue → JValue → Bool
  | .jnull, .jnull => true
  | .jbool x, .jbool y => x == y
  | .jint n, .jint m => n == m
  | .jfloat s, .jfloat t => s == t
  | .jstr s, .jstr t => s == t
  | .jarr l, .jarr m => jvalListBeq l m
  | .jobj d, .jobj e => jvalObjBeq d e
  | _, _ => false

/-- Pointwise `jvalBeq` on lists. -/
def jvalListBeq : List JValue → List JValue → Bool
  | [], [] => true
  | a :: l, b :: m => jvalBeq a b && jvalListBeq l m
  | _, _ => false

/-- Pointwise `jvalBeq` on object fields. -/
def jvalObjBeq : List (String × JValue) → List (String × JValue) → Bool
  | [], [] => true
  | (k, a) :: l, (k', b) :: m => k == k' && (jvalBeq a b && jvalObjBeq l m)
  | _, _ => false

end

mutual

/-- `jvalBeq` decides propositional equality. -/
theorem jvalBeq_iff : ∀ a b, jvalBeq a b = true ↔ a = b
  | a, b => by
    cases a <;> cases b <;>
      simp only [jvalBeq, beq_iff_eq, Bool.and_eq_true, JValue.jbool.injEq,
        JValue.jint.injEq, JValue.jfloat.injEq, JValue.jstr.injEq,
        JValue.jarr.injEq, JValue.jobj.injEq, and_true, true_and, iff_true,
        iff_self] <;>
      first
        | rfl
        | simp
        | exact jvalListBeq_iff _ _
        | exact jvalObjBeq_iff _ _

/-- `jvalListBeq` decides propositional equality. -/
theorem jvalListBeq_iff : ∀ l m, jvalListBeq l m = true ↔ l = m
  | [], [] => by simp [jvalListBeq]
  | [], _ :: _ => by simp [jvalListBeq]
  | _ :: _, [] => by simp [jvalListBeq]
  | a :: l, b :: m => by
    simp only [jvalListBeq, Bool.and_eq_true, List.cons.injEq]
    rw [jvalBeq_iff a b, jvalListBeq_iff l m]

/-- `jvalObjBeq` decides propositional equality. -/
theorem jvalObjBeq_iff : ∀ l m, jvalObjBeq l m = true ↔ l = m
  | [], [] => by simp [jvalObjBeq]
  | [], _ :: _ => by simp [jvalObjBeq]
  | _ :: _, [] => by simp [jvalObjBeq]
  | (k, a) :: l, (k', b) :: m => by
    simp only [jvalObjBeq, Bool.and_eq_true, List.cons.injEq, Prod.mk.injEq,
      beq_iff_eq]
    rw [jvalBeq_iff a b, jvalObjBeq_iff l m]
    tauto

end

instance : DecidableEq JValue := fun a b => decidable_of_iff _ (jvalBeq_iff a b)

/-- JSON whitespace (the four characters Python's json accepts between
tokens). -/
def isJsonWs (c : Char) : Bool :=
  c = ' ' || c = '\t' || c = '\n' || c = '\x0d'

/-- Drops leading JSON whitespace. -/
def skipWs : List Char → List Char
  | c :: rest => if isJsonWs c then skipWs rest else c :: rest
  | [] => []

/-- Value of one hexadecimal digit. -/
def hexVal (c : Char) : Option Nat :=
  if '0' ≤ c ∧ c ≤ '9' then some (c.toNat - '0'.toNat)
  else if 'a' ≤ c ∧ c ≤ 'f' then some (c.toNat - 'a'.toNat + 10)
  else if 'A' ≤ c ∧ c ≤ 'F' then some (c.toNat - 'A'.toNat + 10)
  else none

/-- Value of four hexadecimal digits. -/
def hex4 (h1 h2 h3 h4 : Char) : Option Nat := do
  let a ← hexVal h1
  let b ← hexVal h2
  let c ← hexVal h3
  let d ← hexVal h4
  pure (a * 4096 + b * 256 + c * 16 + d)

/-- Parses the remainder of a JSON string literal after the opening quote,
as Python's strict json decoder does: raw control characters are rejected,
the eight short escapes and `\uXXXX` are accepted. A `\uXXXX` code unit in
the surrogate range (which Python handles by UTF-16 pairing and which a
Lean `Char` cannot carry alone) is replaced by U+FFFD: the set of accepted
inputs is exactly Python's, and only parse success or failure — never the
text of such an escape — matters to the checkpoint logic. -/
def parseJStr : List Char → List Char → Option (String × List Char)
  | acc, '"' :: rest => some (String.mk acc.reverse, rest)
  | acc, '\\' :: esc =>
      match esc with
      | '"' :: rest => parseJStr ('"' :: acc) rest
      | '\\' :: rest => parseJStr ('\\' :: acc) rest
      | '/' :: rest => parseJStr ('/' :: acc) rest
      | 'b' :: rest => parseJStr ('\x08' :: acc) rest
      | 'f' :: rest => parseJStr ('\x0c' :: acc) rest
      | 'n' :: rest => parseJStr ('\n' :: acc) rest
      | 'r' :: rest => parseJStr ('\x0d' :: acc) rest
      | 't' :: rest => parseJStr ('\t' :: acc) rest
      | 'u' :: h1 :: h2 :: h3 :: h4 :: rest =>
          match hex4 h1 h2 h3 h4 with
          | none => none
          | some n =>
              if 55296 ≤ n ∧ n ≤ 57343 then
                parseJStr (Char.ofNat 65533 :: acc) rest
              else parseJStr (Char.ofNat n :: acc) rest
      | _ => none
  | acc, c :: rest =>
      if c.toNat < 32 then none else parseJStr (c :: acc) rest
  | _, [] => none

/-- Splits leading decimal digits. -/
def takeDigits : List Char → List Char × List Char
  | c :: rest =>
      if '0' ≤ c ∧ c ≤ '9' then
        let p := takeDigits rest
        (c :: p.1, p.2)
      else ([], c :: rest)
  | [] => ([], [])

/-- Decimal digits to a natural number. -/
def digitsToNat (acc : Nat) : List Char → Nat
  | [] => acc
  | c :: rest => digitsToNat (acc * 10 + (c.toNat - 48)) rest

/-- Parses an optional exponent part; `some ([], cs)` when there is none,
`none` when an `e` is not followed by digits. -/
def parseExpPart : List Char → Option (List Char × List Char)
  | 'e' :: '+' :: rest =>
      match takeDigits rest with
      | ([], _) => none
      | (ds, r) => some ('e' :: '+' :: ds, r)
  | 'e' :: '-' :: rest =>
      match takeDigits rest with
      | ([], _) => none
      | (ds, r) => some ('e' :: '-' :: ds, r)
  | 'e' :: rest =>
      match takeDigits rest with
      | ([], _) => none
      | (ds, r) => some ('e' :: ds, r)
  | 'E' :: '+' :: rest =>
      match takeDigits rest with
      | ([], _) => none
      | (ds, r) => some ('E' :: '+' :: ds, r)
  | 'E' :: '-' :: rest =>
      match takeDigits rest with
      | ([], _) => none
      | (ds, r) => some ('E' :: '-' :: ds, r)
  | 'E' :: rest =>
      match takeDigits rest with
      | ([], _) => none
      | (ds, r) => some ('E' :: ds, r)
  | cs => some ([], cs)

/-- Parses a JSON number as Python's json does: optional minus, an integer
part without leading zeros, optional fraction and exponent. With a fraction
or an exponent the number loads as a float; otherwise as an int. -/
def parseJNum (cs : List Char) : Option (JValue × List Char) :=
  let sign : List Char × List Char :=
    match cs with
    | '-' :: rest => (['-'], rest)
    | _ => ([], cs)
  match sign.2 with
  | c :: rest =>
      if '0' ≤ c ∧ c ≤ '9' then
        let ip : List Char × List Char :=
          if c = '0' then ([c], rest)
          else
            let p := takeDigits rest
            (c :: p.1, p.2)
        match ip.2 with
        | '.' :: fr =>
            match takeDigits fr with
            | ([], _) => none
            | (ds, cs3) =>
                match parseExpPart cs3 with
                | none => none
                | some (es, cs4) =>
                    some (.jfloat (String.mk
                      (sign.1 ++ ip.1 ++ '.' :: ds ++ es)), cs4)
        | cs2 =>
            match parseExpPart cs2 with
            | none => none
            | some ([], _) =>
                some (.jint (if sign.1.isEmpty then (digitsToNat 0 ip.1 : Int)
                  else -(digitsToNat 0 ip.1 : Int)), ip.2)
            | some (es, cs4) =>
                some (.jfloat (String.mk (sign.1 ++ ip.1 ++ es)), cs4)
      else none
  | [] => none

mutual

/-- Parses one JSON value with explicit fuel (the initial fuel, one more
than the input length, always suffices: every nesting level consumes at
least one character first). Mirrors the grammar Python's `json.loads`
accepts by default, including the non-standard `NaN`, `Infinity` and
`-Infinity`. -/
def parseJValue : Nat → List Char → Option (JValue × List Char)
  | 0, _ => none
  | fuel + 1, cs =>
      match skipWs cs with
      | '"' :: rest => (parseJStr [] rest).map (fun p => (JValue.jstr p.1, p.2))
      | '\x7b' :: rest =>
          match skipWs rest with
          | '\x7d' :: r2 => some (.jobj [], r2)
          | r2 => (parseJObjItems fuel r2).map (fun p => (JValue.jobj p.1, p.2))
      | '[' :: rest =>
          match skipWs rest with
          | ']' :: r2 => some (.jarr [], r2)
          | r2 => (parseJArrItems fuel r2).map (fun p => (JValue.jarr p.1, p.2))
      | 'n' :: 'u' :: 'l' :: 'l' :: rest => some (.jnull, rest)
      | 't' :: 'r' :: 'u' :: 'e' :: rest => some (.jbool true, rest)
      | 'f' :: 'a' :: 'l' :: 's' :: 'e' :: rest => some (.jbool false, rest)
      | 'N' :: 'a' :: 'N' :: rest => some (.jfloat "NaN", rest)
      | 'I' :: 'n' :: 'f' :: 'i' :: 'n' :: 'i' :: 't' :: 'y' :: rest =>
          some (.jfloat "Infinity", rest)
      | '-' :: 'I' :: 'n' :: 'f' :: 'i' :: 'n' :: 'i' :: 't' :: 'y' :: rest =>
          some (.jfloat "-Infinity", rest)
      | rest => parseJNum rest

/-- Parses the items of a non-empty JSON array. -/
def parseJArrItems : Nat → List Char → Option (List JValue × List Char)
  | 0, _ => none
  | fuel + 1, cs => do
      let (v, r) ← parseJValue fuel cs
      match skipWs r with
      | ',' :: r2 => do
          let (vs, r3) ← parseJArrItems fuel r2
          pure (v :: vs, r3)
      | ']' :: r2 => pure ([v], r2)
      | _ => none

/-- Parses the fields of a non-empty JSON object. -/
def parseJObjItems : Nat → List Char → Option (List (String × JValue) × List Char)
  | 0, _ => none
  | fuel + 1, cs =>
      match skipWs cs with
      | '"' :: r => do
          let (k, r1) ← parseJStr [] r
          match skipWs r1 with
          | ':' :: r2 => do
              let (v, r3) ← parseJValue fuel r2
              match skipWs r3 with
              | ',' :: r4 => do
                  let (ps, r5) ← parseJObjItems fuel r4
                  pure ((k, v) :: ps, r5)
              | '\x7d' :: r4 => pure ([(k, v)], r4)
              | _ => none
          | _ => none
      | _ => none

end

/-- Embeds `json.load(source)` (= `json.loads` of the file text): parse one
JSON value, allow trailing whitespace, reject any extra data; `none` models
the ValueError Python raises on malformed input. -/
def parseJson (s : String) : Option JValue :=
  match parseJValue (s.length + 1) s.data with
  | some (v, rest) => if (skipWs rest).isEmpty then some v else none
  | none => none

/-- Lowercase hexadecimal digit. -/
def hexDigit (n : Nat) : Char :=
  ("0123456789abcdef").toList.getD n '0'

/-- The `\uXXXX` escape of one UTF-16 code unit. -/
def uEscape (n : Nat) : List Char :=
  ['\\', 'u', hexDigit (n / 4096 % 16), hexDigit (n / 256 % 16),
   hexDigit (n / 16 % 16), hexDigit (n % 16)]

/-- `json.dumps` escaping of one character with the default
`ensure_ascii=True`: backslash escapes for the quote, the backslash and the
common control characters, `\uXXXX` for every other control or non-ASCII
character (a character beyond the BMP becomes a UTF-16 surrogate pair). -/
def jsonEscapeChar (c : Char) : List Char :=
  if c = '"' then ['\\', '"']
  else if c = '\\' then ['\\', '\\']
  else if c = '\n' then ['\\', 'n']
  else if c = '\t' then ['\\', 't']
  else if c = '\x0d' then ['\\', 'r']
  else if c = '\x08' then ['\\', 'b']
  else if c = '\x0c' then ['\\', 'f']
  else if c.toNat < 32 ∨ c.toNat > 126 then
    if c.toNat < 65536 then uEscape c.toNat
    else
      uEscape (55296 + (c.toNat - 65536) / 1024) ++
        uEscape (56320 + (c.toNat - 65536) % 1024)
  else [c]

/-- `json.dumps` of a Python string. -/
def jsonDumpString (s : String) : String :=
  String.mk ('"' :: (s.data.map jsonEscapeChar).flatten ++ ['"'])

/-- `json.dumps([oplog_str, timestamp])` for one progress entry: a
two-element JSON array rendered with the default ", " separator
(connector.py line 146). -/
def dumpsPair (oplog_str : String) (timestamp : Int) : String :=
  "[" ++ jsonDumpString oplog_str ++ ", " ++ toString timestamp ++ "]"

/-- A BSON timestamp: seconds and intra-second increment. -/
structure BsonTs : Type where
  time : Int
  inc : Int
  deriving DecidableEq, Repr

/-- Modelled from the spec: `util.bson_ts_to_long` lives in
`mongo_connector/util.py`, which is not under `src/`; §3 LogPosition says a
position is "round-trippable to a 64-bit integer (high 32 bits: seconds;
low 32 bits: intra-second counter)". -/
def bson_ts_to_long (ts : BsonTs) : Int :=
  ts.time * 4294967296 + ts.inc

/-- Modelled from the spec: inverse of `bson_ts_to_long` per §3 (high 32
bits of the integer are the seconds, low 32 bits the counter). -/
def long_to_bson_ts (n : Int) : BsonTs :=
  ⟨n / 4294967296, n % 4294967296⟩

/-- Embeds the serialization loop of `Connector.write_oplog_progress`
(connector.py lines 139-154): for each `(oplog, time_stamp)` item of the
in-memory progress dict (keyed here by `str(oplog)`),
`json.dumps([str(oplog), bson_ts_to_long(time_stamp)])` is written to the
checkpoint file; successive entries are concatenated with nothing between
the dumped two-element arrays. The rename/backup rotation around the write
does not affect the written content and is not modelled. -/
def writeOplogProgress (progress : List (String × BsonTs)) : String :=
  String.join (progress.map (fun p => dumpsPair p.1 (bson_ts_to_long p.2)))

/-- The checkpoint file as the reader sees it: absent (`os.stat` raises
OSError) or present with its full text. -/
inductive FileState : Type where
  | absent
  | present (content : String)

/-- The in-memory oplog progress dict as `read_oplog_progress` fills it:
keys are whatever JSON values sit at even indexes of the checkpoint array,
values are BSON timestamps. -/
abbrev OplogDict : Type := List (JValue × BsonTs)

/-- The update loop `for count in range(0, len(data), 2)` of
`read_oplog_progress` (connector.py lines 186-192) over a parsed JSON
array: items are taken two at a time; `data[count + 1]` past the end raises
IndexError (odd length); `long_to_bson_ts` of a non-integer position raises
TypeError before the dict assignment (a Python bool is an int and shifts
fine); an unhashable key (list or object) raises TypeError at the
assignment itself. -/
def readPairsLoop (dict : OplogDict) : List JValue → Except PyErr OplogDict
  | [] => .ok dict
  | [_] => .error .indexError
  | k :: v :: rest =>
      match v with
      | .jint n =>
          match k with
          | .jarr _ => .error .typeError
          | .jobj _ => .error .typeError
          | _ => readPairsLoop (alSet dict k (long_to_bson_ts n)) rest
      | .jbool b =>
          match k with
          | .jarr _ => .error .typeError
          | .jobj _ => .error .typeError
          | _ => readPairsLoop
              (alSet dict k (long_to_bson_ts (if b then 1 else 0))) rest
      | _ => .error .typeError

/-- Embeds `Connector.read_oplog_progress` (connector.py lines 158-192).
`checkpoint = none` models `self.oplog_checkpoint is None`. The Python
function always returns None; its observable effect is the in-memory
progress dict, returned here, with an uncaught exception as an error.
A missing file (OSError from `os.stat`), a zero-size file, and content that
`json.load` cannot parse (ValueError) are all caught and leave the dict
alone. Parsed non-array data reaches `len(data)` and the indexing loop:
a non-empty object raises KeyError at `data[0]` (its keys are strings, not
ints), a string of length 1 raises IndexError at `data[1]`, a longer string
raises TypeError inside `long_to_bson_ts`, and `len()` of any scalar raises
TypeError. -/
def readOplogProgress (checkpoint : Option FileState) (progress : OplogDict) :
    Except PyErr OplogDict :=
  match checkpoint with
  | none => .ok progress
  | some .absent => .ok progress
  | some (.present content) =>
      if content.utf8ByteSize = 0 then .ok progress
      else
        match parseJson content with
        | none => .ok progress
        | some data =>
            match data with
            | .jarr items => readPairsLoop progress items
            | .jobj fields =>
                if fields.isEmpty then .ok progress else .error .keyError
            | .jstr s =>
                if s.length = 0 then .ok progress
                else if s.length = 1 then .error .indexError
                else .error .typeError
            | _ => .error .typeError

/-- C1: refuted — the write loop dumps each `[shard-id, position]` pair as
its own two-element JSON array and concatenates them, so for two or more
shards the checkpoint file is not a single flat JSON array and `json.load`
fails on read: writing the two-shard progress map a ↦ (1, 0), b ↦ (2, 0)
produces `["a", 4294967296]["b", 8589934592]`, which does not parse, so
`read_oplog_progress` treats the file as empty and the map is lost instead
of restored. A single-entry map happens to round-trip, because one dumped
pair is by itself the flat array the reader expects. -/
theorem C1_checkpoint_roundtrip_fails :
    writeOplogProgress [("a", ⟨1, 0⟩), ("b", ⟨2, 0⟩)] =
      "[\"a\", 4294967296][\"b\", 8589934592]" ∧
    parseJson "[\"a\", 4294967296][\"b\", 8589934592]" = none ∧
    readOplogProgress
        (some (.present (writeOplogProgress [("a", ⟨1, 0⟩), ("b", ⟨2, 0⟩)])))
        [] = .ok [] ∧
    readOplogProgress
        (some (.present (writeOplogProgress [("a", ⟨1, 0⟩)]))) [] =
      .ok [(.jstr "a", ⟨1, 0⟩)] :=
  ⟨rfl, rfl, rfl, rfl⟩

/-- C8: an unreadable checkpoint file is treated as empty — when the
checkpoint path is unset, the file is missing (OSError from `os.stat`),
its size is zero, or its content cannot be parsed as JSON (ValueError from
`json.load`), `read_oplog_progress` returns normally (its Python return
value is always None) and leaves the in-memory progress dict unchanged,
raising nothing to the caller. -/
theorem C8_read_unreadable_treated_empty (progress : OplogDict) :
    readOplogProgress none progress = .ok progress ∧
    readOplogProgress (some .absent) progress = .ok progress ∧
    readOplogProgress (some (.present "")) progress = .ok progress ∧
    ∀ content : String, parseJson content = none →
      readOplogProgress (some (.present content)) progress = .ok progress := by
  refine ⟨rfl, rfl, rfl, ?_⟩
  intro content h
  unfold readOplogProgress
  by_cases hsz : content.utf8ByteSize = 0
  · simp [hsz]
  · simp [hsz, h]

/-- Witness for C8 at a concrete dict and unparseable content. -/
theorem C8_read_unreadable_treated_empty_witness :
    parseJson "corrupt" = none ∧
    readOplogProgress (some (.present "corrupt")) [(.jstr "s", ⟨3, 4⟩)] =
      .ok [(.jstr "s", ⟨3, 4⟩)] :=
  ⟨rfl, (C8_read_unreadable_treated_empty [(.jstr "s", ⟨3, 4⟩)]).2.2.2
    "corrupt" rfl⟩

/-- Embeds the namespace validation of `main` (connector.py lines 652-667):
with `-n` parsed into `ns_set` and `-g` into `dest_ns_set` (`none` meaning
the option was absent, in which case `dest_ns_set = ns_set`), the program
exits with code 1 when the two lists have different lengths, then exits
with code 1 when `len(set(ns_set)) + len(set(dest_ns_set)) !=
2 * len(ns_set)`, and otherwise builds the rename map
`dict(zip(ns_set, dest_ns_set))`. `sys.exit(1)` is modelled as
`Except.error 1`; the Connector (line 692) is constructed only after an
`ok`. -/
def mainNamespaceConfig (ns_set : List String)
    (dest_ns_set_opt : Option (List String)) :
    Except Nat (List (String × String)) :=
  let dest_ns_set := dest_ns_set_opt.getD ns_set
  if dest_ns_set.length ≠ ns_set.length then .error 1
  else if ns_set.dedup.length + dest_ns_set.dedup.length ≠
      2 * ns_set.length then .error 1
  else .ok (pyDict (ns_set.zip dest_ns_set))

/-- The distinct-count test of `main` detects exactly duplicate-freeness of
both lists (when their lengths agree). -/
theorem dedup_sum_eq_iff (ns dest : List String)
    (hlen : dest.length = ns.length) :
    ns.dedup.length + dest.dedup.length = 2 * ns.length ↔
      ns.Nodup ∧ dest.Nodup := by
  have hns := (List.dedup_sublist ns).length_le
  have hds := (List.dedup_sublist dest).length_le
  constructor
  · intro h
    have hnsl : ns.dedup.length = ns.length := by omega
    have hdsl : dest.dedup.length = dest.length := by omega
    exact ⟨List.dedup_eq_self.1 ((List.dedup_sublist ns).eq_of_length hnsl),
      List.dedup_eq_self.1 ((List.dedup_sublist dest).eq_of_length hdsl)⟩
  · rintro ⟨h1, h2⟩
    rw [List.dedup_eq_self.2 h1, List.dedup_eq_self.2 h2]
    omega

/-- C9: given both namespace lists, `main` exits with code 1 exactly when
the destination list's length differs from the source list's or either
list holds a duplicate — in all these cases before any Connector is
constructed — and otherwise builds the rename map by pairing the two lists
position by position. -/
theorem C9_namespace_validation (ns_set dest_ns_set : List String) :
    (mainNamespaceConfig ns_set (some dest_ns_set) = .error 1 ↔
      (dest_ns_set.length ≠ ns_set.length ∨ ¬ns_set.Nodup ∨
        ¬dest_ns_set.Nodup)) ∧
    (dest_ns_set.length = ns_set.length → ns_set.Nodup → dest_ns_set.Nodup →
      mainNamespaceConfig ns_set (some dest_ns_set) =
        .ok (ns_set.zip dest_ns_set)) := by
  have hmain : mainNamespaceConfig ns_set (some dest_ns_set) =
      if dest_ns_set.length ≠ ns_set.length then .error 1
      else if ns_set.dedup.length + dest_ns_set.dedup.length ≠
          2 * ns_set.length then .error 1
      else .ok (pyDict (ns_set.zip dest_ns_set)) := rfl
  constructor
  · rw [hmain]
    by_cases h1 : dest_ns_set.length = ns_set.length
    · rw [if_neg (not_not.2 h1)]
      by_cases h2 : ns_set.Nodup ∧ dest_ns_set.Nodup
      · rw [if_neg (not_not.2 ((dedup_sum_eq_iff _ _ h1).2 h2))]
        simp [h1, h2.1, h2.2]
      · rw [if_pos (fun hc => h2 ((dedup_sum_eq_iff _ _ h1).1 hc))]
        rw [Classical.not_and_iff_or_not_not] at h2
        simp only [true_iff, iff_true]
        exact Or.inr h2
    · rw [if_pos h1]
      simp [h1]
  · intro hlen hnd1 hnd2
    rw [hmain, if_neg (not_not.2 hlen),
      if_neg (not_not.2 ((dedup_sum_eq_iff _ _ hlen).2 ⟨hnd1, hnd2⟩))]
    have hkeys : alKeys (ns_set.zip dest_ns_set) = ns_set := by
      rw [alKeys, List.map_fst_zip _ _ (le_of_eq hlen.symm)]
    rw [pyDict_eq_self _ (by rw [hkeys]; exact hnd1)]

/-- Witness for C9 at concrete inputs: a valid pair of two-element lists, a
length mismatch, and a duplicate in the source list. -/
theorem C9_namespace_validation_witness :
    mainNamespaceConfig ["a.b", "c.d"] (some ["x.y", "z.w"]) =
      .ok [("a.b", "x.y"), ("c.d", "z.w")] ∧
    mainNamespaceConfig ["a.b", "c.d"] (some ["x.y"]) = .error 1 ∧
    mainNamespaceConfig ["a.b", "a.b"] (some ["x.y", "z.w"]) = .error 1 :=
  ⟨(C9_namespace_validation ["a.b", "c.d"] ["x.y", "z.w"]).2 rfl
      (by decide) (by decide),
    rfl, rfl⟩
